import Mathlib

/-!
snapshark: the snap dump/index format, `filter` and `view`.

A shallow embedding of `cmd/filter/main.go` and `cmd/view/main.go`.

* A file is the list of its bytes.  `ReadAt` follows `os.File.ReadAt`: it copies the
  bytes available at the offset into the front of the buffer, leaves the rest of the
  buffer as it was, and reports an error when fewer than `len(b)` bytes were read.
* `int64`/`uint64` values are `Int`/`Nat`, with the conversions written out.
* The RLP codec, Keccak, `time.Now` and the formatting of a `time.Time` are libraries
  outside the repository: they are parameters (`Env`, and the `now` argument of
  `writePacket`).
* The unbounded `for` loop of `filter` is a step function iterated a given number of
  times; the binary search of `view` gets the length of the index as fuel, which is
  shown to be enough.
-/

namespace Snapshark

/-! ## Bytes and files -/

abbrev Byte := Fin 256

abbrev Bytes := List Byte

/-- The value `binary.BigEndian.Uint64(b)` of the first eight bytes of `b`. -/
def beUint64 (b : Bytes) : Nat :=
  (b.take 8).foldl (fun acc x => acc * 256 + x.val) 0

/-- The conversion `int64(u)` of a `uint64`. -/
def toInt64 (u : Nat) : Int :=
  if u % 2 ^ 64 < 2 ^ 63 then ((u % 2 ^ 64 : Nat) : Int) else ((u % 2 ^ 64 : Nat) : Int) - 2 ^ 64

/-- The result of `file.ReadAt(b, off)`: the buffer afterwards, the number of bytes read,
and whether an error was returned.  A negative offset is an error that reads nothing; a
read that ends before the buffer is full returns `io.EOF`. -/
def ReadAt (file : Bytes) (b : Bytes) (off : Int) : Bytes × Nat × Bool :=
  if off < 0 then (b, 0, true)
  else
    let got := (file.drop off.toNat).take b.length
    (got ++ b.drop got.length, got.length, decide (got.length < b.length))

/-- The timestamp of index entry `i` as both programs read it:
`int64(binary.BigEndian.Uint64(...))` of the eight bytes at offset `17 * i`. -/
def timestampAt (index : Bytes) (i : Int) : Int :=
  toInt64 (beUint64 ((index.drop (17 * i).toNat).take 8))

/-- The offset field of index entry `i`: the big-endian `uint64` at offset `17 * i + 8`. -/
def offsetAt (index : Bytes) (i : Int) : Nat :=
  beUint64 ((index.drop (17 * i + 8).toNat).take 8)

/-! ## view: the binary search of `main` -/

/-- The variables of the search loop of `view`; `probed` records the positions read. -/
structure Search where
  start : Int
  end_ : Int
  blob : Bytes
  probed : List Int
deriving Repr, DecidableEq

/-- One pass through the body of `for start < end-1` in `view`. -/
def searchStep (index : Bytes) (slot : Int) (s : Search) : Search :=
  let mid := (s.start + s.end_).tdiv 2
  let blob := (ReadAt index s.blob (mid * 17)).1
  let inst := toInt64 (beUint64 blob)
  if inst > slot then
    { start := s.start, end_ := mid, blob := blob, probed := s.probed ++ [mid] }
  else
    { start := mid, end_ := s.end_, blob := blob, probed := s.probed ++ [mid] }

/-- The loop `for start < end-1 { ... }`, run for at most `fuel` passes; `none` when the
fuel is used up before the loop condition fails. -/
def searchLoop (index : Bytes) (slot : Int) : Nat → Search → Option Search
  | 0, s => if s.start < s.end_ - 1 then none else some s
  | fuel + 1, s =>
    if s.start < s.end_ - 1 then searchLoop index slot fuel (searchStep index slot s)
    else some s

/-- The value `(indexstat.Size() - 17) / 17` that `view` computes from the index size
(Go's integer division truncates towards zero). -/
def cap (size : Int) : Int := (size - 17).tdiv 17

/-- The search of `view` from its initial variables: `start = 0`,
`end = (size - 17) / 17`, `blob = make([]byte, 8)`. -/
def search (index : Bytes) (slot : Int) : Option Search :=
  searchLoop index slot index.length
    { start := 0, end_ := cap index.length, blob := List.replicate 8 0, probed := [] }

/-- The position `start` that the binary search of `view` leaves for the query `slot`. -/
def locate (index : Bytes) (slot : Int) : Option Int :=
  (search index slot).map (fun s => s.start)

/-- The positions whose timestamps the binary search reads for the query `slot`. -/
def probes (index : Bytes) (slot : Int) : List Int :=
  ((search index slot).map (fun s => s.probed)).getD []

/-- The `<Up>` key handler of `view`. -/
def up (start : Int) : Int :=
  if start > 0 then start - 1 else start

/-- The `<Down>` key handler of `view`, for an index file of `size` bytes. -/
def down (size : Int) (start : Int) : Int :=
  if start < cap size - 1 then start + 1 else start

/-! ## The index entry as bytes -/

/-- The low byte of `v`. -/
def byteOf (v : Nat) : Byte := ⟨v % 256, Nat.mod_lt _ (by decide)⟩

/-- The eight bytes `binary.Write(w, binary.BigEndian, v)` produces for a 64-bit `v`
(taken modulo `2^64`). -/
def putUint64 (v : Nat) : Bytes :=
  [byteOf (v / 2 ^ 56), byteOf (v / 2 ^ 48), byteOf (v / 2 ^ 40), byteOf (v / 2 ^ 32),
   byteOf (v / 2 ^ 24), byteOf (v / 2 ^ 16), byteOf (v / 2 ^ 8), byteOf v]

/-- The bit pattern `uint64(x)` of an `int64`. -/
def toUint64 (x : Int) : Nat := (x % 2 ^ 64).toNat

/-- The kind byte of index entry `i`: the byte at offset `17 * i + 16`. -/
def kindAt (index : Bytes) (i : Int) : Byte :=
  (index.drop (17 * i + 16).toNat).headD 0

/-! ## Packets (`eth/protocols/snap`), as far as the two programs look into them -/

/-- The type `common.Hash`: 32 bytes. -/
abbrev Hash := { l : Bytes // l.length = 32 }

/-- The value `common.Hash{}`. -/
def zeroHash : Hash := ⟨List.replicate 32 0, rfl⟩

structure AccountData where
  Hash : Hash
  Body : Bytes
deriving DecidableEq, Repr

structure StorageData where
  Hash : Hash
  Body : Bytes
deriving DecidableEq, Repr

structure AccountRangePacket where
  ID : Nat
  Accounts : List AccountData
  Proof : List Bytes
deriving DecidableEq, Repr

structure StorageRangesPacket where
  ID : Nat
  Slots : List (List StorageData)
  Proof : List Bytes
deriving DecidableEq, Repr

structure ByteCodesPacket where
  ID : Nat
  Codes : List Bytes
deriving DecidableEq, Repr

structure TrieNodesPacket where
  ID : Nat
  Nodes : List Bytes
deriving DecidableEq, Repr

/-- The four packet types that `filter` and `view` create and switch on. -/
inductive Packet where
  | accountRange (packet : AccountRangePacket)
  | storageRanges (packet : StorageRangesPacket)
  | byteCodes (packet : ByteCodesPacket)
  | trieNodes (packet : TrieNodesPacket)
deriving DecidableEq, Repr

/-- The libraries the programs call.  A decoder gets the bytes of the dump from the file
position on and returns the packet (`none` for a decoding error) and the number of bytes
by which it moved the file position. -/
structure Env where
  decodeAccountRange : Bytes → Option AccountRangePacket × Nat
  decodeStorageRanges : Bytes → Option StorageRangesPacket × Nat
  decodeByteCodes : Bytes → Option ByteCodesPacket × Nat
  decodeTrieNodes : Bytes → Option TrieNodesPacket × Nat
  /-- The result of `rlp.EncodeToBytes`, `none` for an error. -/
  encodeToBytes : Packet → Option Bytes
  /-- Keccak-256: `hasher.Reset(); hasher.Write(x); hasher.Read(hash)`. -/
  keccak : Bytes → Hash
  /-- The method `time.Time.String` of `time.Unix(0, nsec)`. -/
  timeString : Int → String
  /-- The function `snapshot.FullAccountRLP`, `none` for an error. -/
  fullAccountRLP : Bytes → Option Bytes

/-- The dump as an open `*os.File`: its bytes and the file position. -/
structure DumpFile where
  data : Bytes
  offset : Nat
deriving DecidableEq, Repr

/-- The call `dump.Seek(offset, io.SeekStart)`, its error ignored as the programs do: a
negative offset is refused and leaves the position where it was. -/
def Seek (dump : DumpFile) (offset : Int) : DumpFile :=
  if offset < 0 then dump else { dump with offset := offset.toNat }

/-- The `switch kind` that picks the packet type, followed by `rlp.Decode(dump, packet)`:
for a kind above 3 the packet is the nil interface and `rlp.Decode` returns an error
without reading. -/
def decodePacket (env : Env) (kind : Byte) (stream : Bytes) : Option Packet × Nat :=
  match kind.val with
  | 0 => ((env.decodeAccountRange stream).1.map Packet.accountRange,
          (env.decodeAccountRange stream).2)
  | 1 => ((env.decodeStorageRanges stream).1.map Packet.storageRanges,
          (env.decodeStorageRanges stream).2)
  | 2 => ((env.decodeByteCodes stream).1.map Packet.byteCodes,
          (env.decodeByteCodes stream).2)
  | 3 => ((env.decodeTrieNodes stream).1.map Packet.trieNodes,
          (env.decodeTrieNodes stream).2)
  | _ => (none, 0)

/-- Seek to `offset` and decode one packet of the kind given: the packet, if any, and the
dump with its new file position. -/
def readPacket (env : Env) (dump : DumpFile) (offset : Int) (kind : Byte) :
    Option Packet × DumpFile :=
  let dump := Seek dump offset
  let r := decodePacket env kind (dump.data.drop dump.offset)
  (r.1, { dump with offset := dump.offset + r.2 })

/-- The three reads of one index entry that `filter`, `paragraph` and `export` share:
`index.ReadAt(blob, pos*17+8)` and `index.ReadAt(blob[:1], pos*17+16)` into the buffer
`blob`, errors ignored.  Returns the offset, the kind and the buffer afterwards. -/
def readOffsetKind (index : Bytes) (blob : Bytes) (pos : Int) : Int × Byte × Bytes :=
  let blob := (ReadAt index blob (pos * 17 + 8)).1
  let offset := toInt64 (beUint64 blob)
  let blob := (ReadAt index (blob.take 1) (pos * 17 + 16)).1 ++ blob.drop 1
  (offset, blob.headD 0, blob)

/-! ## filter: `makeMatcher` and the loop of `filter` -/

/-- The function `bytes.Contains(b, sub)`. -/
def contains : Bytes → Bytes → Bool
  | [], sub => sub.isEmpty
  | x :: xs, sub => sub.isPrefixOf (x :: xs) || contains xs sub

/-- The function that `makeMatcher(root)` returns. -/
def makeMatcher (env : Env) (root : Hash) (p : Packet) : Bool :=
  match p with
  | .accountRange packet =>
    packet.Accounts.any (fun x => decide (x.Hash = root) || contains x.Body root.val)
  | .storageRanges packet =>
    packet.Slots.any (fun x => x.any (fun data => decide (data.Hash = root)))
  | .byteCodes packet =>
    packet.Codes.any (fun x => contains x root.val)
  | .trieNodes packet =>
    packet.Nodes.any (fun x => contains x root.val || decide ((env.keccak x).val = root.val))

/-- How one pass of the loop of `filter` ends. -/
inductive Status where
  | running
  | endOfLog
  | panicked
deriving DecidableEq, Repr

/-- The variables of `filter` (`pos`, `blob`, the dump's file position) with a record of
what the loop has done: the positions it read, the packets it decoded and the packets it
sent on `outCh`, each in order. -/
structure Scan where
  pos : Int
  blob : Bytes
  dump : DumpFile
  reads : List Int
  decoded : List Packet
  sent : List Packet
deriving DecidableEq, Repr

/-- One pass through the body of the `for` loop of `filter`.  The source has no statement
that changes `pos`, so a pass that does not break or panic leaves `pos` as it was. -/
def filterStep (env : Env) (index : Bytes) (matchFn : Packet → Bool) (s : Scan) :
    Status × Scan :=
  let r := ReadAt index s.blob (s.pos * 17)
  if r.2.2 then
    (Status.endOfLog, { s with blob := r.1, reads := s.reads ++ [s.pos] })
  else
    let e := readOffsetKind index r.1 s.pos
    let d := readPacket env s.dump e.1 e.2.1
    match d.1 with
    | none =>
      (Status.panicked, { s with blob := e.2.2, dump := d.2, reads := s.reads ++ [s.pos] })
    | some packet =>
      (Status.running,
        { pos := s.pos, blob := e.2.2, dump := d.2, reads := s.reads ++ [s.pos],
          decoded := s.decoded ++ [packet],
          sent := if matchFn packet then s.sent ++ [packet] else s.sent })

/-- The loop of `filter` run for at most `passes` passes: `Status.running` when the loop
has neither broken out nor panicked by then. -/
def filterRun (env : Env) (index : Bytes) (matchFn : Packet → Bool) :
    Nat → Scan → Status × Scan
  | 0, s => (Status.running, s)
  | passes + 1, s =>
    match filterStep env index matchFn s with
    | (Status.running, s') => filterRun env index matchFn passes s'
    | r => r

/-- The function `filter` from its initial variables `pos = 0`, `blob = make([]byte, 8)`,
on a dump just opened. -/
def filter (env : Env) (dump index : Bytes) (matchFn : Packet → Bool) (passes : Nat) :
    Status × Scan :=
  filterRun env index matchFn passes
    { pos := 0, blob := List.replicate 8 0, dump := { data := dump, offset := 0 },
      reads := [], decoded := [], sent := [] }

/-! ## filter: `writePacket` and the goroutine that calls it -/

/-- An output file as an open `*os.File`: its bytes, the file position, whether the
descriptor allows writing, and how many more bytes the device takes before it refuses
(`none` for no limit). -/
structure OutFile where
  data : Bytes
  offset : Nat
  writable : Bool
  room : Option Nat
deriving DecidableEq, Repr

/-- The number of bytes of a buffer of `n` bytes that a device with `room` left takes. -/
def taken (room : Option Nat) (n : Nat) : Nat :=
  match room with
  | none => n
  | some r => min r n

/-- The call `f.Write(b)`: the file afterwards and whether an error was returned.  A
descriptor that does not allow writing refuses the call and leaves the file as it was.
Otherwise the bytes go to the file position (a gap before it reads as zeros), as many of
them as the device takes; when that is fewer than `len(b)` the call returns an error after
the short write. -/
def Write (f : OutFile) (b : Bytes) : OutFile × Bool :=
  if f.writable then
    let k := taken f.room b.length
    ({ data := f.data.take f.offset ++ List.replicate (f.offset - f.data.length) 0
          ++ b.take k ++ f.data.drop (f.offset + k),
       offset := f.offset + k,
       writable := f.writable,
       room := f.room.map (fun r => r - k) }, decide (k < b.length))
  else (f, true)

/-- The state `writePacket` works on: the two output files, the package variable
`snapSize`, and the lines printed to standard output (without the error text). -/
structure Writer where
  snapDump : OutFile
  snapIndex : OutFile
  snapSize : Nat
  stdout : List String
deriving DecidableEq, Repr

/-- How a call of a function without results ends. -/
inductive Outcome where
  | returned
  | panicked
deriving DecidableEq, Repr

/-- The kind byte `writePacket` picks in its type switch. -/
def kindOf : Packet → Byte
  | .accountRange _ => 0
  | .storageRanges _ => 1
  | .byteCodes _ => 2
  | .trieNodes _ => 3

/-- Adds `line` to the output when `err` is set: `if err != nil { fmt.Printf(...) }`. -/
def logIf (err : Bool) (line : String) (out : List String) : List String :=
  if err then out ++ [line] else out

/-- The function `writePacket`, with `now` the value of `time.Now().UnixNano()` in this
call.  Every error is printed and the function carries on; it has no result and no path
that panics. -/
def writePacket (env : Env) (w : Writer) (now : Int) (packet : Packet) :
    Writer × Outcome :=
  let blob := (env.encodeToBytes packet).getD []
  let d := Write w.snapDump blob
  let out := logIf d.2 "Failed to write packet into dump" w.stdout
  let i1 := Write w.snapIndex (putUint64 (toUint64 now))
  let out := logIf i1.2 "Failed to write timestamp into index" out
  let i2 := Write i1.1 (putUint64 w.snapSize)
  let out := logIf i2.2 "Failed to write offset into index" out
  let snapSize := (w.snapSize + blob.length) % 2 ^ 64
  let i3 := Write i2.1 [kindOf packet]
  let out := logIf i3.2 "Failed to write type into index" out
  ({ snapDump := d.1, snapIndex := i3.1, snapSize := snapSize, stdout := out },
    Outcome.returned)

/-- The goroutine of `main`: `for p := range output { writePacket(outdump, outindex, p) }`,
each packet paired with the clock reading of its call. -/
def writeAll (env : Env) (w : Writer) : List (Int × Packet) → Writer
  | [] => w
  | (now, p) :: rest => writeAll env (writePacket env w now p).1 rest

/-- The writer at the start of the program: `snapSize = 0`, nothing printed. -/
def newWriter (snapDump snapIndex : OutFile) : Writer :=
  { snapDump := snapDump, snapIndex := snapIndex, snapSize := 0, stdout := [] }

/-- An empty file opened for writing, on a device that takes every write. -/
def emptyFile : OutFile := { data := [], offset := 0, writable := true, room := none }

/-- The bytes `rlp.EncodeToBytes` gives `writePacket`: empty when encoding fails. -/
def encode (env : Env) (p : Packet) : Bytes := (env.encodeToBytes p).getD []

/-- The call `os.Open(name)` on an existing file, as `main` opens its output files: the
descriptor is read-only and the file position is 0. -/
def osOpen (data : Bytes) : OutFile :=
  { data := data, offset := 0, writable := false, room := none }

/-- A file whose writes append and all succeed: writable, with the file position at its
end, on a device without a limit. -/
def Appending (f : OutFile) : Prop :=
  f.writable = true ∧ f.offset = f.data.length ∧ f.room = none

/-- A file that takes the next `n` bytes at its end: writable, with the file position at
its end, and room for `n` bytes. -/
def Accepts (f : OutFile) (n : Nat) : Prop :=
  f.writable = true ∧ f.offset = f.data.length ∧ n ≤ taken f.room n

instance (f : OutFile) (n : Nat) : Decidable (Accepts f n) := by
  unfold Accepts; infer_instance

/-- An empty file opened for writing on a device that takes `r` more bytes. -/
def fileWithRoom (r : Nat) : OutFile :=
  { data := [], offset := 0, writable := true, room := some r }

instance (f : OutFile) : Decidable (Appending f) := by
  unfold Appending; infer_instance

/-! ## view: `paragraph` -/

/-- The fields of `widgets.Paragraph` that `paragraph` sets. -/
structure Paragraph where
  Title : String
  Text : String
deriving DecidableEq, Repr

/-- The lengths of the two slices `AccountRangePacket.Unpack` returns: one entry per
account, or none when an account body does not convert. -/
def unpackAccounts (env : Env) (packet : AccountRangePacket) : Nat × Nat :=
  if packet.Accounts.all (fun acc => (env.fullAccountRLP acc.Body).isSome) then
    (packet.Accounts.length, packet.Accounts.length)
  else (0, 0)

/-- The text `paragraph` formats for a decoded packet at position `pos`. -/
def summary (env : Env) (pos : Int) : Packet → String
  | .accountRange packet =>
    "#" ++ toString pos ++ ") Account Range Packet  (req #" ++ toString packet.ID
      ++ "):\n  - " ++ toString (unpackAccounts env packet).1 ++ " hashes\n  - "
      ++ toString (unpackAccounts env packet).2 ++ " accounts\n  - "
      ++ toString packet.Proof.length ++ " proofs"
  | .storageRanges packet =>
    "#" ++ toString pos ++ ") Storage Ranges Packet (req #" ++ toString packet.ID
      ++ "):\n  - " ++ toString packet.Slots.length ++ " hashset\n  - "
      ++ toString packet.Slots.length ++ " slotset\n  - "
      ++ toString packet.Proof.length ++ " proofs"
  | .byteCodes packet =>
    "#" ++ toString pos ++ ") Byte Codes Packet     (req #" ++ toString packet.ID
      ++ "):\n  - " ++ toString packet.Codes.length ++ " bytecodes"
  | .trieNodes packet =>
    "#" ++ toString pos ++ ") Trie Nodes Packet     (req #" ++ toString packet.ID
      ++ "):\n  - " ++ toString packet.Nodes.length ++ " trienodes"

/-- The function `paragraph(dump, index, pos, cap)`: the paragraph (`none` when decoding
panics) and the dump with its new file position. -/
def paragraph (env : Env) (dump : DumpFile) (index : Bytes) (pos cap : Int) :
    Option Paragraph × DumpFile :=
  if pos < 0 then
    (some { Title := "", Text := "Reached start of dump..." }, dump)
  else if pos ≥ cap then
    (some { Title := "", Text := "Reached end of dump..." }, dump)
  else
    let blob := (ReadAt index (List.replicate 8 0) (pos * 17)).1
    let time := toInt64 (beUint64 blob)
    let e := readOffsetKind index blob pos
    let d := readPacket env dump e.1 e.2.1
    match d.1 with
    | none => (none, d.2)
    | some packet =>
      (some { Title := env.timeString time, Text := summary env pos packet }, d.2)

/-- The paragraph `render` shows for position `pos` on an index file of `size` bytes:
`paragraph(dump, index, pos, (indexstat.Size()-17)/17)`. -/
def describe (env : Env) (dump : DumpFile) (index : Bytes) (pos : Int) :
    Option Paragraph × DumpFile :=
  paragraph env dump index pos (cap index.length)

/-! ## Predicates the statements use -/

/-- The timestamps of the first `n` entries of the index are non-decreasing. -/
def Sorted (index : Bytes) (n : Nat) : Prop :=
  ∀ j < n, ∀ i ≤ j, timestampAt index (i : Nat) ≤ timestampAt index (j : Nat)

instance (index : Bytes) (n : Nat) : Decidable (Sorted index n) := by
  unfold Sorted; infer_instance

/-- Position `p` is the last of the entries `0 .. m-1` whose timestamp is at most `t`. -/
def IsLastAtMost (index : Bytes) (m : Nat) (t : Int) (p : Int) : Prop :=
  0 ≤ p ∧ p < m ∧ timestampAt index p ≤ t ∧
    ∀ i < m, timestampAt index (i : Nat) ≤ t → (i : Int) ≤ p

instance (index : Bytes) (m : Nat) (t p : Int) : Decidable (IsLastAtMost index m t p) := by
  unfold IsLastAtMost; infer_instance

/-- The 17 bytes of one index entry: timestamp, offset, kind. -/
def entry (time offset : Nat) (kind : Byte) : Bytes :=
  putUint64 time ++ putUint64 offset ++ [kind]

/-! ## A small codec and log to run the definitions on -/

/-- Reads `[id, len] ++ blob` from the front of the stream. -/
def demoDecode (stream : Bytes) : Option (Nat × Bytes) × Nat :=
  match stream with
  | id :: len :: rest =>
    if len.val ≤ rest.length then (some (id.val, rest.take len.val), 2 + len.val)
    else (none, 2 + rest.length)
  | _ => (none, stream.length)

/-- The byte string `[id, len] ++ blob`. -/
def demoEncode (id : Nat) (blob : Bytes) : Bytes :=
  byteOf id :: byteOf blob.length :: blob

/-- A stand-in for the libraries: every packet is an id and one blob. -/
def demoEnv : Env where
  decodeAccountRange := fun s =>
    ((demoDecode s).1.map (fun r => { ID := r.1, Accounts := [], Proof := [r.2] }),
      (demoDecode s).2)
  decodeStorageRanges := fun s =>
    ((demoDecode s).1.map (fun r => { ID := r.1, Slots := [], Proof := [r.2] }),
      (demoDecode s).2)
  decodeByteCodes := fun s =>
    ((demoDecode s).1.map (fun r => { ID := r.1, Codes := [r.2] }), (demoDecode s).2)
  decodeTrieNodes := fun s =>
    ((demoDecode s).1.map (fun r => { ID := r.1, Nodes := [r.2] }), (demoDecode s).2)
  encodeToBytes := fun p =>
    match p with
    | .accountRange ⟨id, [], [blob]⟩ => some (demoEncode id blob)
    | .storageRanges ⟨id, [], [blob]⟩ => some (demoEncode id blob)
    | .byteCodes ⟨id, [blob]⟩ => some (demoEncode id blob)
    | .trieNodes ⟨id, [blob]⟩ => some (demoEncode id blob)
    | _ => none
  keccak := fun x => ⟨List.replicate 32 (byteOf x.length), List.length_replicate _ _⟩
  timeString := fun nsec => toString nsec
  fullAccountRLP := fun body => some body

/-- A target hash: 32 bytes of value 7. -/
def demoTarget : Hash := ⟨List.replicate 32 7, rfl⟩

/-- A trie-node packet whose one node holds the target. -/
def demoR1 : Packet := .trieNodes { ID := 1, Nodes := [demoTarget.val] }

/-- A trie-node packet that does not match the target. -/
def demoR2 : Packet := .trieNodes { ID := 2, Nodes := [[1, 2, 3]] }

/-- A bytecode packet whose one code holds the target. -/
def demoR3 : Packet := .byteCodes { ID := 3, Codes := [5 :: demoTarget.val] }

/-- The dump of the three packets, back to back. -/
def demoDump : Bytes := encode demoEnv demoR1 ++ encode demoEnv demoR2 ++ encode demoEnv demoR3

/-- The index of `demoDump`, with timestamps 10, 20, 30. -/
def demoIndex : Bytes := entry 10 0 3 ++ entry 20 34 3 ++ entry 30 39 2

/-- The lengths of the encodings of the packets of `rs`, added up. -/
def encodedLength (env : Env) (rs : List (Int × Packet)) : Nat :=
  (rs.map (fun r => (encode env r.2).length)).sum

/-- The encodings of the packets of `rs`, back to back. -/
def payloads (env : Env) : List (Int × Packet) → Bytes
  | [] => []
  | r :: rest => encode env r.2 ++ payloads env rest

/-- The index entries of the packets of `rs` when the first payload starts at `off`. -/
def entriesFrom (env : Env) (off : Nat) : List (Int × Packet) → Bytes
  | [] => []
  | r :: rest =>
    entry (toUint64 r.1) off (kindOf r.2) ++ entriesFrom env (off + (encode env r.2).length) rest

/-- Index entry `p` points at a payload of the dump that decodes to `pk`: its offset is a
valid file position and decoding its kind there gives `pk`. -/
def RecordAt (env : Env) (dump index : Bytes) (p : Int) (pk : Packet) : Prop :=
  offsetAt index p < 2 ^ 63 ∧
    (decodePacket env (kindAt index p) (dump.drop (offsetAt index p))).1 = some pk

instance (env : Env) (dump index : Bytes) (p : Int) (pk : Packet) :
    Decidable (RecordAt env dump index p pk) := by
  unfold RecordAt; infer_instance


/-! ## Lemmas on reads and on the binary search -/

theorem ReadAt_length (file b : Bytes) (off : Int) : (ReadAt file b off).1.length = b.length := by
  unfold ReadAt
  split
  · rfl
  · simp only [List.length_append, List.length_drop, List.length_take]
    omega

theorem ReadAt_full (file b : Bytes) (off : Int) (h0 : 0 ≤ off)
    (h : off.toNat + b.length ≤ file.length) :
    (ReadAt file b off).1 = (file.drop off.toNat).take b.length := by
  unfold ReadAt
  rw [if_neg (by omega)]
  have hl : ((file.drop off.toNat).take b.length).length = b.length := by
    simp only [List.length_take, List.length_drop]; omega
  simp only [hl, List.drop_length, List.append_nil]

theorem cap_entries (n : Nat) : cap ((17 * n : Nat) : Int) = (n : Int) - 1 := by
  unfold cap
  rcases Nat.eq_zero_or_pos n with h | h
  · subst h; decide
  · rw [Int.tdiv_eq_ediv (by omega) (by decide)]
    omega

theorem mid_eq (a b : Int) (h : 0 ≤ a + b) : (a + b).tdiv 2 = (a + b) / 2 :=
  Int.tdiv_eq_ediv h (by decide)

/-- The timestamp that one pass of the search compares with `slot`. -/
theorem searchStep_inst (index : Bytes) (n : Nat) (hlen : index.length = 17 * n)
    (blob : Bytes) (hb : blob.length = 8) (mid : Int) (h0 : 0 ≤ mid) (h1 : mid < n) :
    toInt64 (beUint64 (ReadAt index blob (mid * 17)).1) = timestampAt index mid := by
  rw [ReadAt_full index blob (mid * 17) (by omega) (by omega), hb, timestampAt, mul_comm]

/-- The search returns: the distance between the bounds shrinks on every pass. -/
theorem searchLoop_terminates (index : Bytes) (slot : Int) :
    ∀ (fuel : Nat) (s : Search), 0 ≤ s.start → s.end_ - s.start ≤ fuel + 1 →
      ∃ r, searchLoop index slot fuel s = some r := by
  intro fuel
  induction fuel with
  | zero =>
    intro s _ h
    refine ⟨s, ?_⟩
    simp only [searchLoop]
    rw [if_neg (by omega)]
  | succ k ih =>
    intro s h0 h
    simp only [searchLoop]
    split
    · rename_i hlt
      have hm := mid_eq s.start s.end_ (by omega)
      apply ih
      · simp only [searchStep]
        split <;> simp only <;> omega
      · simp only [searchStep]
        split <;> simp only <;> omega
    · exact ⟨s, rfl⟩

/-- The invariant of the search on an index of `n` entries, and what it gives when the
loop stops. -/
theorem searchLoop_sorted (index : Bytes) (n : Nat) (hlen : index.length = 17 * n)
    (t : Int) :
    ∀ (fuel : Nat) (s : Search), s.blob.length = 8 → 0 ≤ s.start → s.start < s.end_ →
      s.end_ ≤ (n : Int) - 1 → s.end_ - s.start ≤ fuel + 1 →
      timestampAt index s.start ≤ t →
      (s.end_ = (n : Int) - 1 ∨ t < timestampAt index s.end_) →
      ∃ r, searchLoop index t fuel s = some r ∧ r.start + 1 = r.end_ ∧ 0 ≤ r.start ∧
        r.end_ ≤ (n : Int) - 1 ∧ timestampAt index r.start ≤ t ∧
        (r.end_ = (n : Int) - 1 ∨ t < timestampAt index r.end_) := by
  intro fuel
  induction fuel with
  | zero =>
    intro s _ h0 hlt hn hf hT hE
    refine ⟨s, ?_, by omega, h0, hn, hT, hE⟩
    simp only [searchLoop]
    rw [if_neg (by omega)]
  | succ k ih =>
    intro s hb h0 hlt hn hf hT hE
    simp only [searchLoop]
    split
    · rename_i hc
      have hm := mid_eq s.start s.end_ (by omega)
      have hinst := searchStep_inst index n hlen s.blob hb ((s.start + s.end_).tdiv 2)
        (by omega) (by omega)
      have hlen8 := ReadAt_length index s.blob ((s.start + s.end_).tdiv 2 * 17)
      by_cases hgt : timestampAt index ((s.start + s.end_).tdiv 2) > t
      · have hs : searchStep index t s =
            { start := s.start, end_ := (s.start + s.end_).tdiv 2,
              blob := (ReadAt index s.blob ((s.start + s.end_).tdiv 2 * 17)).1,
              probed := s.probed ++ [(s.start + s.end_).tdiv 2] } := by
          simp only [searchStep]
          rw [hinst, if_pos hgt]
        rw [hs]
        apply ih
        · simpa using hlen8.trans hb
        · exact h0
        · simp only; omega
        · simp only; omega
        · simp only; omega
        · exact hT
        · right; exact hgt
      · have hs : searchStep index t s =
            { start := (s.start + s.end_).tdiv 2, end_ := s.end_,
              blob := (ReadAt index s.blob ((s.start + s.end_).tdiv 2 * 17)).1,
              probed := s.probed ++ [(s.start + s.end_).tdiv 2] } := by
          simp only [searchStep]
          rw [hinst, if_neg hgt]
        rw [hs]
        apply ih
        · simpa using hlen8.trans hb
        · simp only; omega
        · simp only; omega
        · exact hn
        · simp only; omega
        · simp only; omega
        · exact hE
    · rename_i hc
      exact ⟨s, rfl, by omega, h0, hn, hT, hE⟩

/-- Positions already read stay in the record of the search. -/
theorem searchLoop_probed_mono (index : Bytes) (slot : Int) :
    ∀ (fuel : Nat) (s r : Search), searchLoop index slot fuel s = some r →
      ∀ i ∈ s.probed, i ∈ r.probed := by
  intro fuel
  induction fuel with
  | zero =>
    intro s r h i hi
    simp only [searchLoop] at h
    split at h
    · cases h
    · cases h; exact hi
  | succ k ih =>
    intro s r h i hi
    simp only [searchLoop] at h
    split at h
    · apply ih _ _ h
      simp only [searchStep]
      split <;> simp [hi]
    · cases h; exact hi

/-- When every timestamp read is later than the query, `start` never moves. -/
theorem searchLoop_all_later (index : Bytes) (n : Nat) (hlen : index.length = 17 * n)
    (t : Int) :
    ∀ (fuel : Nat) (s r : Search), s.blob.length = 8 → 0 ≤ s.start →
      s.end_ ≤ (n : Int) - 1 → searchLoop index t fuel s = some r →
      (∀ i ∈ r.probed, t < timestampAt index i) → r.start = s.start := by
  intro fuel
  induction fuel with
  | zero =>
    intro s r _ _ _ h _
    simp only [searchLoop] at h
    split at h
    · cases h
    · cases h; rfl
  | succ k ih =>
    intro s r hb h0 hn h hall
    simp only [searchLoop] at h
    split at h
    · rename_i hc
      have hm := mid_eq s.start s.end_ (by omega)
      have hinst := searchStep_inst index n hlen s.blob hb ((s.start + s.end_).tdiv 2)
        (by omega) (by omega)
      have hlen8 := ReadAt_length index s.blob ((s.start + s.end_).tdiv 2 * 17)
      have hmem : (s.start + s.end_).tdiv 2 ∈ (searchStep index t s).probed := by
        simp only [searchStep]
        split <;> simp
      have hgt := hall _ (searchLoop_probed_mono index t k _ r h _ hmem)
      have hs : searchStep index t s =
          { start := s.start, end_ := (s.start + s.end_).tdiv 2,
            blob := (ReadAt index s.blob ((s.start + s.end_).tdiv 2 * 17)).1,
            probed := s.probed ++ [(s.start + s.end_).tdiv 2] } := by
        simp only [searchStep]
        rw [hinst, if_pos hgt]
      rw [hs] at h
      have := ih (Search.mk s.start ((s.start + s.end_).tdiv 2)
            (ReadAt index s.blob ((s.start + s.end_).tdiv 2 * 17)).1
            (s.probed ++ [(s.start + s.end_).tdiv 2])) r
        (by simpa using hlen8.trans hb) h0 (by simp only; omega) h hall
      simpa using this
    · cases h; rfl

theorem cap_le (k : Nat) : cap (k : Int) ≤ (k : Int) := by
  unfold cap
  rcases Nat.lt_or_ge k 17 with h | h
  · have hall : ∀ j : Fin 17, ((j.val : Int) - 17).tdiv 17 ≤ (j.val : Int) := by decide
    exact hall ⟨k, h⟩
  · rw [Int.tdiv_eq_ediv (by omega) (by decide)]
    omega

/-- The search of `view` returns on every index file: its length is fuel enough. -/
theorem search_terminates (index : Bytes) (slot : Int) : ∃ r, search index slot = some r := by
  unfold search
  apply searchLoop_terminates
  · exact le_refl _
  · have := cap_le index.length
    simp only
    omega

/-! ## The binary search of `view` -/

/-- The search on an index of `n` entries: the initial variables. -/
theorem search_init (index : Bytes) (n : Nat) (hlen : index.length = 17 * n) (t : Int) :
    search index t = searchLoop index t (17 * n)
      { start := 0, end_ := (n : Int) - 1, blob := List.replicate 8 0, probed := [] } := by
  unfold search
  rw [hlen, cap_entries]

/-- On at most two entries the loop body never runs. -/
theorem locate_small (index : Bytes) (n : Nat) (hlen : index.length = 17 * n) (hn : n ≤ 2)
    (t : Int) : search index t =
      some { start := 0, end_ := (n : Int) - 1, blob := List.replicate 8 0, probed := [] } := by
  rw [search_init index n hlen]
  cases hk : 17 * n with
  | zero => simp only [searchLoop]; rw [if_neg (by omega)]
  | succ k => simp only [searchLoop]; rw [if_neg (by omega)]

/-- On two or more entries with `T[0] <= t` the search stops at a position `p <= n-2`
with `T[p] <= t` that is followed by a later timestamp unless `p = n-2`. -/
theorem locate_sorted (index : Bytes) (n : Nat) (hlen : index.length = 17 * n) (hn : 2 ≤ n)
    (t : Int) (h0 : timestampAt index 0 ≤ t) :
    ∃ p : Nat, locate index t = some (p : Int) ∧ p + 2 ≤ n ∧ timestampAt index (p : Nat) ≤ t ∧
      (p + 2 = n ∨ t < timestampAt index ((p + 1 : Nat) : Int)) := by
  have h := searchLoop_sorted index n hlen t (17 * n)
    { start := 0, end_ := (n : Int) - 1, blob := List.replicate 8 0, probed := [] }
    (by simp) (by simp) (by simp only; omega) (by simp) (by simp only; omega) h0
    (Or.inl rfl)
  obtain ⟨r, hr, hse, hs0, hen, hT, hE⟩ := h
  obtain ⟨p, hp⟩ := Int.eq_ofNat_of_zero_le hs0
  refine ⟨p, ?_, by omega, by rw [← hp]; exact hT, ?_⟩
  · unfold locate
    rw [search_init index n hlen, hr, Option.map_some', hp]
  · rcases hE with hE | hE
    · left; omega
    · right
      have : ((p + 1 : Nat) : Int) = r.end_ := by omega
      rw [this]; exact hE

/-- In a sorted index a position holding a later timestamp bounds the entries at most `t`. -/
theorem sorted_before (index : Bytes) (n : Nat) (hs : Sorted index n) (t : Int) (q : Nat)
    (hlt : t < timestampAt index (q : Nat)) (i : Nat) (hi : i < n)
    (hle : timestampAt index (i : Nat) ≤ t) : i < q := by
  by_contra hcon
  have := hs i hi q (by omega)
  omega

/-- C10: what the binary search of `view` computes.  On an index of `n >= 2` entries with
non-decreasing timestamps and a query `t >= T[0]` the loop terminates at a position `p`
with `0 <= p <= n-2`, `T[p] <= t`, `p = n-2` or `T[p+1] > t`, and `p` is the last of the
entries `0 .. n-2` with a timestamp at most `t`.  On `n <= 2` entries, and whenever `t` is
before every timestamp the search reads, it returns 0. -/
theorem view_search_computes (index : Bytes) (n : Nat) (t : Int)
    (hlen : index.length = 17 * n) :
    (2 ≤ n → Sorted index n → timestampAt index 0 ≤ t →
      ∃ p : Nat, locate index t = some (p : Int) ∧ p + 2 ≤ n ∧
        timestampAt index (p : Nat) ≤ t ∧
        (p + 2 = n ∨ t < timestampAt index ((p + 1 : Nat) : Int)) ∧
        IsLastAtMost index (n - 1) t p) ∧
    (n ≤ 2 → locate index t = some 0) ∧
    ((∀ i ∈ probes index t, t < timestampAt index i) → locate index t = some 0) := by
  refine ⟨?_, ?_, ?_⟩
  · intro hn hs h0
    obtain ⟨p, hp, hpn, hT, hE⟩ := locate_sorted index n hlen hn t h0
    refine ⟨p, hp, hpn, hT, hE, by omega, by omega, hT, ?_⟩
    intro i hi hle
    rcases hE with hE | hE
    · omega
    · have := sorted_before index n hs t (p + 1) hE i (by omega) hle
      omega
  · intro hn
    unfold locate
    rw [locate_small index n hlen hn t]
    rfl
  · intro hall
    obtain ⟨r, hr⟩ := searchLoop_terminates index t (17 * n)
      { start := 0, end_ := (n : Int) - 1, blob := List.replicate 8 0, probed := [] }
      (by simp) (by simp only; omega)
    have hsr : search index t = some r := by rw [search_init index n hlen, hr]
    have hpr : probes index t = r.probed := by
      unfold probes; rw [hsr]; rfl
    rw [hpr] at hall
    have := searchLoop_all_later index n hlen t (17 * n) _ r (by simp) (by simp) (by simp)
      hr hall
    unfold locate
    rw [hsr, Option.map_some', this]

/-- The demonstration index (timestamps 10, 20, 30): the query 20 is located at entry 1,
any query on its first two entries at 0, and the query 5 at 0. -/
theorem view_search_computes_witness :
    (∃ p : Nat, locate demoIndex 20 = some (p : Int) ∧ p + 2 ≤ 3 ∧
        timestampAt demoIndex (p : Nat) ≤ 20 ∧
        (p + 2 = 3 ∨ 20 < timestampAt demoIndex ((p + 1 : Nat) : Int)) ∧
        IsLastAtMost demoIndex (3 - 1) 20 p) ∧
      locate (demoIndex.take 34) 99 = some 0 ∧ locate demoIndex 5 = some 0 :=
  ⟨(view_search_computes demoIndex 3 20 (by decide)).1 (by decide) (by decide) (by decide),
   (view_search_computes (demoIndex.take 34) 2 99 (by decide)).2.1 (by decide),
   (view_search_computes demoIndex 3 5 (by decide)).2.2 (by decide)⟩

/-- C1, as stated, fails: on the sorted index with timestamps 10, 20, 30 and the query
`t = 30` (so `T[0] <= t <= T[2]`) the search returns 1, and the last entry with a
timestamp at most 30 is entry 2. -/
theorem locator_last_entry_counterexample :
    ¬ ∀ (index : Bytes) (n : Nat) (t : Int), 1 ≤ n → index.length = 17 * n →
        Sorted index n → timestampAt index 0 ≤ t →
        t ≤ timestampAt index (((n - 1 : Nat) : Nat) : Int) →
        ∃ p : Int, locate index t = some p ∧ IsLastAtMost index n t p := by
  intro h
  obtain ⟨p, hp, hl⟩ := h demoIndex 3 30 (by decide) (by decide) (by decide) (by decide)
    (by decide)
  have h1 : locate demoIndex 30 = some 1 := by decide
  rw [h1] at hp
  cases hp
  exact absurd hl (by decide)

/-- C1, amended: on an index of `n >= 1` entries with non-decreasing timestamps and
`T[0] <= t <= T[n-1]` the search returns the last of the entries `0 .. max(n-2, 0)` whose
timestamp is at most `t`; that is the last such entry of the whole index when `n = 1` or
`t < T[n-1]`. -/
theorem locator_last_but_one (index : Bytes) (n : Nat) (t : Int) (hn : 1 ≤ n)
    (hlen : index.length = 17 * n) (hs : Sorted index n) (h0 : timestampAt index 0 ≤ t)
    (_h1 : t ≤ timestampAt index ((n - 1 : Nat) : Int)) :
    ∃ p : Int, locate index t = some p ∧ IsLastAtMost index (max (n - 1) 1) t p ∧
      ((n = 1 ∨ t < timestampAt index ((n - 1 : Nat) : Int)) → IsLastAtMost index n t p) := by
  rcases Nat.lt_or_ge n 2 with hsmall | hbig
  · have hn1 : n = 1 := by omega
    subst hn1
    refine ⟨0, ?_, ?_, ?_⟩
    · unfold locate
      rw [locate_small index 1 hlen (by omega) t]
      rfl
    · refine ⟨le_refl _, by simp, h0, ?_⟩
      intro i hi _
      have : i < 1 := by simpa using hi
      omega
    · intro _
      refine ⟨le_refl _, by simp, h0, ?_⟩
      intro i hi _
      omega
  · obtain ⟨p, hp, hpn, hT, hE⟩ := locate_sorted index n hlen hbig t h0
    have hmax : max (n - 1) 1 = n - 1 := by omega
    refine ⟨p, hp, ?_, ?_⟩
    · rw [hmax]
      refine ⟨by omega, by omega, hT, ?_⟩
      intro i hi hle
      rcases hE with hE | hE
      · omega
      · have := sorted_before index n hs t (p + 1) hE i (by omega) hle
        omega
    · intro hcase
      have hlast : t < timestampAt index ((n - 1 : Nat) : Int) := by
        rcases hcase with h | h
        · omega
        · exact h
      refine ⟨by omega, by omega, hT, ?_⟩
      intro i hi hle
      have hi1 := sorted_before index n hs t (n - 1) hlast i hi hle
      rcases hE with hE | hE
      · omega
      · have := sorted_before index n hs t (p + 1) hE i hi hle
        omega

/-- The demonstration index and the query 25, which lies before the last timestamp. -/
theorem locator_last_but_one_witness :
    ∃ p : Int, locate demoIndex 25 = some p ∧ IsLastAtMost demoIndex (max (3 - 1) 1) 25 p ∧
      ((3 = 1 ∨ 25 < timestampAt demoIndex ((3 - 1 : Nat) : Int)) →
        IsLastAtMost demoIndex 3 25 p) :=
  locator_last_but_one demoIndex 3 25 (by decide) (by decide) (by decide) (by decide)
    (by decide)

/-! ## The key handlers of `view` -/

/-- C8, as stated, fails: on an index of two entries `down()` at position 0 stays at 0,
where `min(p+1, n-1)` is 1. -/
theorem navigator_down_counterexample :
    ¬ ∀ (n : Nat) (p : Int), 1 ≤ n → 0 ≤ p → p ≤ (n : Int) - 1 →
        up p = max (p - 1) 0 ∧ down ((17 * n : Nat) : Int) p = min (p + 1) ((n : Int) - 1) := by
  intro h
  have := (h 2 0 (by decide) (by decide) (by decide)).2
  revert this
  decide

/-- C8, amended: on an index of `n >= 1` entries and a position `0 <= p <= n-1`, `up()`
yields `max(p-1, 0)` and `down()` yields `p+1` when `p < n-2` and `p` otherwise; so `up()`
at 0 stays at 0, `down()` at `n-1` stays at `n-1`, and `down()` at any `p < n-2` yields
`p+1`. -/
theorem navigator_steps (n : Nat) (p : Int) (_hn : 1 ≤ n) (h0 : 0 ≤ p)
    (h1 : p ≤ (n : Int) - 1) :
    up p = max (p - 1) 0 ∧
      down ((17 * n : Nat) : Int) p = (if p < (n : Int) - 2 then p + 1 else p) ∧
      up 0 = 0 ∧ down ((17 * n : Nat) : Int) ((n : Int) - 1) = (n : Int) - 1 ∧
      (p < (n : Int) - 2 → down ((17 * n : Nat) : Int) p = p + 1) := by
  have hc := cap_entries n
  refine ⟨?_, ?_, by decide, ?_, ?_⟩
  · unfold up
    split
    · rw [max_eq_left (by omega)]
    · have : p = 0 := by omega
      subst this; decide
  · unfold down
    rw [hc]
    by_cases hp : p < (n : Int) - 2
    · rw [if_pos (by omega), if_pos hp]
    · rw [if_neg (by omega), if_neg hp]
  · unfold down
    rw [hc, if_neg (by omega)]
  · intro hp
    unfold down
    rw [hc, if_pos (by omega)]

/-- An index of four entries and the position 1. -/
theorem navigator_steps_witness :
    up 1 = max (1 - 1) 0 ∧
      down ((17 * 4 : Nat) : Int) 1 = (if (1 : Int) < ((4 : Nat) : Int) - 2 then 1 + 1 else 1) ∧
      up 0 = 0 ∧ down ((17 * 4 : Nat) : Int) (((4 : Nat) : Int) - 1) = ((4 : Nat) : Int) - 1 ∧
      ((1 : Int) < ((4 : Nat) : Int) - 2 → down ((17 * 4 : Nat) : Int) 1 = 1 + 1) :=
  navigator_steps 4 1 (by decide) (by decide) (by decide)

/-! ## The matcher -/

/-- The function `contains` decides whether `sub` occurs in `b` as a contiguous run. -/
theorem contains_iff (b sub : Bytes) : contains b sub = true ↔ sub <:+: b := by
  induction b with
  | nil =>
    simp only [contains, List.isEmpty_iff]
    constructor
    · intro h; subst h; exact List.infix_refl _
    · intro h; exact List.eq_nil_of_infix_nil h
  | cons x xs ih =>
    simp only [contains, Bool.or_eq_true, ih, List.isPrefixOf_iff_prefix]
    exact (List.infix_cons_iff).symm

/-- C5: the function `makeMatcher(target)` returns is true exactly on (a) an account-range
packet with an account whose `Hash` is the target or whose `Body` contains the target's
32 bytes, (b) a storage-ranges packet with a slot, in any of its lists, whose `Hash` is the
target, (c) a bytecode packet with a code that contains the target, (d) a trie-node packet
with a node that contains the target or whose Keccak hash is the target.  So a trie-node
packet whose single node hashes to the target matches even when the target does not occur
in the node, and a bytecode packet none of whose codes contains the target does not. -/
theorem makeMatcher_iff (env : Env) (target : Hash) :
    (∀ p : Packet, makeMatcher env target p = true ↔
      match p with
      | .accountRange packet =>
        ∃ x ∈ packet.Accounts, x.Hash = target ∨ target.val <:+: x.Body
      | .storageRanges packet => ∃ x ∈ packet.Slots, ∃ data ∈ x, data.Hash = target
      | .byteCodes packet => ∃ x ∈ packet.Codes, target.val <:+: x
      | .trieNodes packet =>
        ∃ x ∈ packet.Nodes, target.val <:+: x ∨ env.keccak x = target) ∧
    (∀ (id : Nat) (x : Bytes), env.keccak x = target → ¬ target.val <:+: x →
      makeMatcher env target (.trieNodes { ID := id, Nodes := [x] }) = true) ∧
    (∀ packet : ByteCodesPacket, (∀ x ∈ packet.Codes, ¬ target.val <:+: x) →
      makeMatcher env target (.byteCodes packet) = false) := by
  refine ⟨?_, ?_, ?_⟩
  · intro p
    cases p with
    | accountRange packet =>
      simp only [makeMatcher, List.any_eq_true, Bool.or_eq_true, decide_eq_true_eq,
        contains_iff]
    | storageRanges packet =>
      simp only [makeMatcher, List.any_eq_true, decide_eq_true_eq]
    | byteCodes packet =>
      simp only [makeMatcher, List.any_eq_true, contains_iff]
    | trieNodes packet =>
      simp only [makeMatcher, List.any_eq_true, Bool.or_eq_true, decide_eq_true_eq,
        contains_iff, Subtype.val_inj]
  · intro id x hk _
    simp only [makeMatcher, List.any_cons, List.any_nil, Bool.or_false, Bool.or_eq_true,
      decide_eq_true_eq, hk, or_true]
  · intro packet h
    simp only [makeMatcher]
    rw [List.any_eq_false]
    intro x hx
    rw [contains_iff]
    exact h x hx

/-- A trie node of seven bytes whose stand-in hash is the target, and a bytecode packet
without the target. -/
theorem makeMatcher_iff_witness :
    makeMatcher demoEnv demoTarget
        (.trieNodes { ID := 4, Nodes := [List.replicate 7 0] }) = true ∧
      makeMatcher demoEnv demoTarget (.byteCodes { ID := 2, Codes := [[1, 2, 3]] }) = false :=
  ⟨(makeMatcher_iff demoEnv demoTarget).2.1 4 (List.replicate 7 0) (by decide) (by decide),
   (makeMatcher_iff demoEnv demoTarget).2.2 { ID := 2, Codes := [[1, 2, 3]] } (by decide)⟩

/-! ## The writer -/

/-- Reading back the eight bytes written for `v`. -/
theorem beUint64_putUint64 (v : Nat) : beUint64 (putUint64 v) = v % 2 ^ 64 := by
  simp only [beUint64, putUint64, byteOf, List.take, List.foldl]
  norm_num
  omega

theorem putUint64_length (v : Nat) : (putUint64 v).length = 8 := rfl

theorem entry_length (t off : Nat) (k : Byte) : (entry t off k).length = 17 := rfl

/-- A write at the end of a writable file appends. -/
theorem Write_append (f : OutFile) (b : Bytes) (hw : f.writable = true)
    (ho : f.offset = f.data.length) (hr : f.room = none) :
    Write f b = ({ data := f.data ++ b, offset := (f.data ++ b).length, writable := true,
                   room := none }, false) := by
  unfold Write
  rw [if_pos hw, ho, hr]
  simp [hw, taken]

/-- A write to a writable file whose position is its end. -/
theorem Write_at_end (d b : Bytes) :
    Write { data := d, offset := d.length, writable := true, room := none } b =
      ({ data := d ++ b, offset := (d ++ b).length, writable := true, room := none },
        false) :=
  Write_append _ _ rfl rfl rfl

/-- One call of `writePacket` on files whose writes append. -/
theorem writePacket_append (env : Env) (w : Writer) (now : Int) (p : Packet)
    (hd : Appending w.snapDump) (hi : Appending w.snapIndex) :
    (writePacket env w now p).1 =
      { snapDump := { data := w.snapDump.data ++ encode env p,
                      offset := (w.snapDump.data ++ encode env p).length, writable := true,
                      room := none },
        snapIndex := { data := w.snapIndex.data ++ entry (toUint64 now) w.snapSize (kindOf p),
                       offset := (w.snapIndex.data
                         ++ entry (toUint64 now) w.snapSize (kindOf p)).length,
                       writable := true, room := none },
        snapSize := (w.snapSize + (encode env p).length) % 2 ^ 64,
        stdout := w.stdout } := by
  unfold writePacket
  simp only [Write_append w.snapDump _ hd.1 hd.2.1 hd.2.2,
    Write_append w.snapIndex _ hi.1 hi.2.1 hi.2.2,
    Write_at_end, logIf, encode, entry, List.append_assoc]
  simp

/-- The goroutine on files whose writes append, while the counter stays below `2^64`. -/
theorem writeAll_append (env : Env) :
    ∀ (rs : List (Int × Packet)) (w : Writer), Appending w.snapDump → Appending w.snapIndex →
      w.snapSize + encodedLength env rs < 2 ^ 64 →
      writeAll env w rs =
        { snapDump := { data := w.snapDump.data ++ payloads env rs,
                        offset := (w.snapDump.data ++ payloads env rs).length,
                        writable := true, room := none },
          snapIndex := { data := w.snapIndex.data ++ entriesFrom env w.snapSize rs,
                         offset := (w.snapIndex.data ++ entriesFrom env w.snapSize rs).length,
                         writable := true, room := none },
          snapSize := w.snapSize + encodedLength env rs,
          stdout := w.stdout } := by
  intro rs
  induction rs with
  | nil =>
    intro w hd hi _
    obtain ⟨⟨dd, dof, dw, dr⟩, ⟨id, iof, iw, ir⟩, sz, out⟩ := w
    simp only [Appending] at hd hi
    simp only [writeAll, payloads, entriesFrom, encodedLength, List.append_nil, List.map_nil,
      List.sum_nil, Nat.add_zero]
    rw [hd.1, hd.2.1, hd.2.2, hi.1, hi.2.1, hi.2.2]
  | cons r rest ih =>
    intro w hd hi hsz
    obtain ⟨now, p⟩ := r
    have hlen : encodedLength env ((now, p) :: rest)
        = (encode env p).length + encodedLength env rest := by
      simp [encodedLength]
    rw [hlen] at hsz
    simp only [writeAll]
    rw [writePacket_append env w now p hd hi]
    have hmod : (w.snapSize + (encode env p).length) % 2 ^ 64
        = w.snapSize + (encode env p).length := Nat.mod_eq_of_lt (by omega)
    rw [ih _ ⟨rfl, rfl, rfl⟩ ⟨rfl, rfl, rfl⟩ (by simp only; rw [hmod]; omega)]
    simp only [hmod, payloads, entriesFrom, hlen, List.append_assoc, Nat.add_assoc]

theorem entriesFrom_length (env : Env) :
    ∀ (rs : List (Int × Packet)) (off : Nat), (entriesFrom env off rs).length = 17 * rs.length := by
  intro rs
  induction rs with
  | nil => intro _; rfl
  | cons r rest ih =>
    intro off
    simp only [entriesFrom, List.length_append, entry_length, ih, List.length_cons]
    omega

/-- The offset field of entry `i` is the start plus the lengths of the payloads before it. -/
theorem entriesFrom_offsetAt (env : Env) :
    ∀ (rs : List (Int × Packet)) (off i : Nat), i < rs.length →
      off + encodedLength env rs < 2 ^ 64 →
      offsetAt (entriesFrom env off rs) (i : Nat) = off + encodedLength env (rs.take i) := by
  intro rs
  induction rs with
  | nil => intro _ i hi; simp at hi
  | cons r rest ih =>
    intro off i hi hsz
    have hlen : encodedLength env (r :: rest)
        = (encode env r.2).length + encodedLength env rest := by
      simp [encodedLength]
    cases i with
    | zero =>
      have h8 : ((17 * ((0 : Nat) : Int) + 8).toNat) = 8 := by decide
      simp only [offsetAt, entriesFrom, entry, h8, List.append_assoc]
      rw [List.drop_append_of_le_length (by simp [putUint64_length]),
        List.drop_of_length_le (by simp [putUint64_length]), List.nil_append,
        List.take_append_of_le_length (by simp [putUint64_length]),
        List.take_of_length_le (by simp [putUint64_length]), beUint64_putUint64]
      simp only [List.take_zero, encodedLength, List.map_nil, List.sum_nil, Nat.add_zero]
      exact Nat.mod_eq_of_lt (by omega)
    | succ k =>
      have hk : k < rest.length := by simpa using hi
      have hoff : (17 * ((k + 1 : Nat) : Int) + 8).toNat = 17 + (17 * (k : Int) + 8).toNat := by
        omega
      have := ih (off + (encode env r.2).length) k hk (by omega)
      simp only [offsetAt] at this ⊢
      simp only [entriesFrom, hoff]
      rw [← List.drop_drop, List.drop_left' (entry_length _ _ _), this]
      simp only [List.take_succ_cons]
      have hlen2 : encodedLength env (r :: rest.take k)
          = (encode env r.2).length + encodedLength env (rest.take k) := by
        simp [encodedLength]
      rw [hlen2]
      omega

theorem encodedLength_cons (env : Env) (r : Int × Packet) (rest : List (Int × Packet)) :
    encodedLength env (r :: rest) = (encode env r.2).length + encodedLength env rest := by
  simp [encodedLength]

theorem payloads_length (env : Env) :
    ∀ rs : List (Int × Packet), (payloads env rs).length = encodedLength env rs := by
  intro rs
  induction rs with
  | nil => rfl
  | cons r rest ih => rw [encodedLength_cons, payloads, List.length_append, ih]

/-- The payload of packet `i` starts where the payloads before it end. -/
theorem payloads_drop (env : Env) :
    ∀ (rs : List (Int × Packet)) (i : Nat) (h : i < rs.length),
      encode env (rs.get ⟨i, h⟩).2 <+: (payloads env rs).drop (encodedLength env (rs.take i)) := by
  intro rs
  induction rs with
  | nil => intro i h; simp at h
  | cons r rest ih =>
    intro i h
    cases i with
    | zero =>
      simp only [List.take_zero, encodedLength, List.map_nil, List.sum_nil, List.drop_zero,
        payloads, List.get_cons_zero]
      exact List.prefix_append _ _
    | succ k =>
      have hk : k < rest.length := by simpa using h
      simp only [List.take_succ_cons, encodedLength_cons, payloads, List.drop_append,
        List.get_cons_succ]
      exact ih k hk

/-- C4: the offset bookkeeping of `writePacket`.  Starting from `snapSize = 0` and empty
output files on which every write succeeds, and with the encodings of `r1 .. rk` shorter
than `2^64` bytes in total: the index file is the `k` entries of 17 bytes (timestamp,
offset, kind) and the dump is the encodings back to back; the eight bytes at index offset
`17*i + 8` (counting entries from 0), read as a big-endian `uint64`, are the sum of the
lengths of the encodings before packet `i`, which is where the encoding of packet `i`
begins in the dump; and the counter ends at the length of the dump.  Nothing is printed. -/
theorem writePacket_offsets (env : Env) (rs : List (Int × Packet))
    (htotal : encodedLength env rs < 2 ^ 64) :
    (writeAll env (newWriter emptyFile emptyFile) rs).snapIndex.data = entriesFrom env 0 rs ∧
    (writeAll env (newWriter emptyFile emptyFile) rs).snapDump.data = payloads env rs ∧
    (writeAll env (newWriter emptyFile emptyFile) rs).snapIndex.data.length = 17 * rs.length ∧
    (∀ (i : Nat) (h : i < rs.length),
      offsetAt (writeAll env (newWriter emptyFile emptyFile) rs).snapIndex.data (i : Nat)
        = encodedLength env (rs.take i) ∧
      encode env (rs.get ⟨i, h⟩).2 <+:
        (writeAll env (newWriter emptyFile emptyFile) rs).snapDump.data.drop
          (encodedLength env (rs.take i))) ∧
    (writeAll env (newWriter emptyFile emptyFile) rs).snapSize
      = (writeAll env (newWriter emptyFile emptyFile) rs).snapDump.data.length ∧
    (writeAll env (newWriter emptyFile emptyFile) rs).stdout = [] := by
  have h := writeAll_append env rs (newWriter emptyFile emptyFile) ⟨rfl, rfl, rfl⟩
    ⟨rfl, rfl, rfl⟩
    (by simpa [newWriter] using htotal)
  rw [h]
  dsimp only [newWriter, emptyFile]
  rw [List.nil_append, List.nil_append, Nat.zero_add]
  refine ⟨rfl, rfl, entriesFrom_length env rs 0, ?_, (payloads_length env rs).symm, rfl⟩
  intro i hi
  refine ⟨?_, payloads_drop env rs i hi⟩
  rw [entriesFrom_offsetAt env rs 0 i hi (by omega), Nat.zero_add]

/-- The three packets of the demonstration log, written at times 10, 20 and 30. -/
theorem writePacket_offsets_witness :
    (writeAll demoEnv (newWriter emptyFile emptyFile)
        [(10, demoR1), (20, demoR2), (30, demoR3)]).snapIndex.data = demoIndex ∧
    (writeAll demoEnv (newWriter emptyFile emptyFile)
        [(10, demoR1), (20, demoR2), (30, demoR3)]).snapDump.data = demoDump ∧
    offsetAt (writeAll demoEnv (newWriter emptyFile emptyFile)
        [(10, demoR1), (20, demoR2), (30, demoR3)]).snapIndex.data ((2 : Nat) : Int) = 39 :=
  have h := writePacket_offsets demoEnv [(10, demoR1), (20, demoR2), (30, demoR3)]
    (by decide)
  ⟨h.1.trans (by decide), h.2.1.trans (by decide),
    (h.2.2.2.1 2 (by decide)).1.trans (by decide)⟩

/-! ## Reading one index entry -/

theorem toInt64_of_lt (u : Nat) (h : u < 2 ^ 63) : toInt64 u = (u : Int) := by
  unfold toInt64
  have h1 : u % 2 ^ 64 = u := Nat.mod_eq_of_lt (by omega)
  rw [h1, if_pos h]

/-- On a whole entry the two reads give its offset and kind, and the buffer keeps its
eight bytes. -/
theorem readOffsetKind_full (index blob : Bytes) (pos : Int) (hb : blob.length = 8)
    (h0 : 0 ≤ pos) (h : (pos * 17 + 17).toNat ≤ index.length) :
    (readOffsetKind index blob pos).1 = toInt64 (offsetAt index pos) ∧
      (readOffsetKind index blob pos).2.1 = kindAt index pos ∧
      (readOffsetKind index blob pos).2.2.length = 8 := by
  have hr1 : (ReadAt index blob (pos * 17 + 8)).1
      = (index.drop (17 * pos + 8).toNat).take 8 := by
    rw [ReadAt_full index blob (pos * 17 + 8) (by omega) (by omega), hb, mul_comm]
  have hl1 : ((index.drop (17 * pos + 8).toNat).take 8).length = 8 := by
    simp only [List.length_take, List.length_drop]; omega
  have hr2 : (ReadAt index (((index.drop (17 * pos + 8).toNat).take 8).take 1)
      (pos * 17 + 16)).1 = (index.drop (17 * pos + 16).toNat).take 1 := by
    have hl : (((index.drop (17 * pos + 8).toNat).take 8).take 1).length = 1 := by
      simp only [List.length_take, List.length_drop]; omega
    rw [ReadAt_full index _ (pos * 17 + 16) (by omega) (by omega), hl, mul_comm]
  simp only [readOffsetKind, hr1, hr2]
  refine ⟨rfl, ?_, ?_⟩
  · unfold kindAt
    cases hd : index.drop (17 * pos + 16).toNat with
    | nil =>
      have := congrArg List.length hd
      simp only [List.length_drop, List.length_nil] at this
      omega
    | cons x xs => rfl
  · simp only [List.length_append, List.length_take, List.length_drop]
    omega

/-- Seeking to the offset of an entry that points into the dump and decoding there. -/
theorem readPacket_record (env : Env) (dump : DumpFile) (index : Bytes) (p : Int)
    (pk : Packet) (h : RecordAt env dump.data index p pk) :
    (readPacket env dump (toInt64 (offsetAt index p)) (kindAt index p)).1 = some pk ∧
      (readPacket env dump (toInt64 (offsetAt index p)) (kindAt index p)).2.data
        = dump.data := by
  have hs : Seek dump (toInt64 (offsetAt index p))
      = { dump with offset := offsetAt index p } := by
    unfold Seek
    rw [toInt64_of_lt _ h.1, if_neg (by omega), Int.toNat_ofNat]
  unfold readPacket
  rw [hs]
  exact ⟨h.2, rfl⟩

/-! ## `paragraph` -/

/-- Every record summary starts with `#`. -/
theorem summary_head (env : Env) (pos : Int) (pk : Packet) :
    (summary env pos pk).data.head? = some '#' := by
  cases pk <;> simp only [summary, String.data_append, List.append_assoc] <;> rfl

/-- A record summary is neither of the two boundary messages. -/
theorem summary_not_boundary (env : Env) (pos : Int) (pk : Packet) :
    summary env pos pk ≠ "Reached start of dump..." ∧
      summary env pos pk ≠ "Reached end of dump..." := by
  have h := summary_head env pos pk
  constructor
  · intro hc
    rw [hc] at h
    revert h
    decide
  · intro hc
    rw [hc] at h
    revert h
    decide

/-- The paragraph of an entry that `paragraph` takes to be inside the log. -/
theorem paragraph_record (env : Env) (dump : DumpFile) (index : Bytes) (pos c : Int)
    (pk : Packet) (h0 : 0 ≤ pos) (hc : pos < c) (h : (pos * 17 + 17).toNat ≤ index.length)
    (hr : RecordAt env dump.data index pos pk) :
    (paragraph env dump index pos c).1 =
      some { Title := env.timeString (timestampAt index pos), Text := summary env pos pk } := by
  have hb : (ReadAt index (List.replicate 8 0) (pos * 17)).1.length = 8 := by
    rw [ReadAt_length]; rfl
  have ht : toInt64 (beUint64 (ReadAt index (List.replicate 8 0) (pos * 17)).1)
      = timestampAt index pos := by
    rw [ReadAt_full index _ (pos * 17) (by omega) (by simp only [List.length_replicate]; omega),
      List.length_replicate, timestampAt, mul_comm]
  obtain ⟨ho, hk, _⟩ := readOffsetKind_full index _ pos hb h0 h
  have hp := (readPacket_record env dump index pos pk hr).1
  unfold paragraph
  rw [if_neg (by omega), if_neg (by omega)]
  simp only [ho, hk, hp, ht]

/-- C9, as stated, fails: on the demonstration log of three entries, position 2 is a
position `0 <= p < n` whose entry decodes, and `paragraph`, called with the cap of `main`,
renders the end-of-dump message for it. -/
theorem describe_last_entry_counterexample :
    ¬ ∀ (env : Env) (dump : DumpFile) (index : Bytes) (n : Nat) (p : Int) (pk : Packet),
        index.length = 17 * n → 0 ≤ p → p < n → RecordAt env dump.data index p pk →
        (describe env dump index p).1 =
          some { Title := env.timeString (timestampAt index p), Text := summary env p pk } := by
  intro h
  have := h demoEnv { data := demoDump, offset := 0 } demoIndex 3 2 demoR3 (by decide)
    (by decide) (by decide) (by decide)
  revert this
  decide

/-- C9, amended: `paragraph`, called with the cap `main` computes from an index of `n`
entries, renders the start-of-dump message for every `p < 0`, the end-of-dump message for
every `p >= n-1` (with `p >= 0`), so for the last entry and for every `p >= n`, and for
every `0 <= p < n-1` whose entry decodes to `pk` it renders the summary of `pk` under the
entry's time, which is not a boundary message. -/
theorem describe_positions (env : Env) (dump : DumpFile) (index : Bytes) (n : Nat) (p : Int)
    (hlen : index.length = 17 * n) :
    (p < 0 → (describe env dump index p).1 =
      some { Title := "", Text := "Reached start of dump..." }) ∧
    (0 ≤ p → (n : Int) - 1 ≤ p → (describe env dump index p).1 =
      some { Title := "", Text := "Reached end of dump..." }) ∧
    (0 ≤ p → p < (n : Int) - 1 → ∀ pk : Packet, RecordAt env dump.data index p pk →
      (describe env dump index p).1 =
        some { Title := env.timeString (timestampAt index p), Text := summary env p pk } ∧
      summary env p pk ≠ "Reached start of dump..." ∧
      summary env p pk ≠ "Reached end of dump...") := by
  have hc : cap (index.length : Int) = (n : Int) - 1 := by rw [hlen, cap_entries]
  refine ⟨?_, ?_, ?_⟩
  · intro hp
    unfold describe paragraph
    rw [if_pos hp]
  · intro h0 hp
    unfold describe paragraph
    rw [if_neg (by omega), if_pos (by omega)]
  · intro h0 hp pk hr
    refine ⟨?_, summary_not_boundary env p pk⟩
    unfold describe
    exact paragraph_record env dump index p _ pk h0 (by omega) (by omega) hr

/-- The demonstration log: position 1 is rendered, positions 2 and -1 are boundaries. -/
theorem describe_positions_witness :
    (describe demoEnv { data := demoDump, offset := 0 } demoIndex 1).1 =
        some { Title := demoEnv.timeString (timestampAt demoIndex 1),
               Text := summary demoEnv 1 demoR2 } ∧
      (describe demoEnv { data := demoDump, offset := 0 } demoIndex 2).1 =
        some { Title := "", Text := "Reached end of dump..." } ∧
      (describe demoEnv { data := demoDump, offset := 0 } demoIndex (-1)).1 =
        some { Title := "", Text := "Reached start of dump..." } :=
  ⟨((describe_positions demoEnv { data := demoDump, offset := 0 } demoIndex 3 1
      (by decide)).2.2 (by decide) (by decide) demoR2 (by decide)).1,
   (describe_positions demoEnv { data := demoDump, offset := 0 } demoIndex 3 2
      (by decide)).2.1 (by decide) (by decide),
   (describe_positions demoEnv { data := demoDump, offset := 0 } demoIndex 3 (-1)
      (by decide)).1 (by decide)⟩

/-! ## The loop of `filter` -/

/-- The first read of a pass reports an error exactly when fewer than eight bytes are
left at offset `17 * pos`. -/
theorem ReadAt_err_iff (index blob : Bytes) (pos : Int) (hb : blob.length = 8) (h0 : 0 ≤ pos) :
    (ReadAt index blob (pos * 17)).2.2 = true ↔ index.length < (pos * 17).toNat + 8 := by
  unfold ReadAt
  rw [if_neg (by omega)]
  simp only [decide_eq_true_eq, List.length_take, List.length_drop, hb]
  omega

/-- One pass over a whole entry whose payload decodes: the packet is decoded, sent when it
matches, and `pos` is what it was. -/
theorem filterStep_record (env : Env) (index : Bytes) (matchFn : Packet → Bool) (s : Scan)
    (pk : Packet) (hb : s.blob.length = 8) (h0 : 0 ≤ s.pos)
    (h : (s.pos * 17 + 17).toNat ≤ index.length)
    (hr : RecordAt env s.dump.data index s.pos pk) :
    ∃ r : Scan, filterStep env index matchFn s = (Status.running, r) ∧ r.pos = s.pos ∧
      r.blob.length = 8 ∧ r.dump.data = s.dump.data ∧ r.reads = s.reads ++ [s.pos] ∧
      r.decoded = s.decoded ++ [pk] ∧
      r.sent = (if matchFn pk then s.sent ++ [pk] else s.sent) := by
  have herr : (ReadAt index s.blob (s.pos * 17)).2.2 = false := by
    rw [← Bool.not_eq_true, ReadAt_err_iff index s.blob s.pos hb h0]
    omega
  have hb1 : (ReadAt index s.blob (s.pos * 17)).1.length = 8 := by
    rw [ReadAt_length]; exact hb
  obtain ⟨ho, hk, hl⟩ := readOffsetKind_full index _ s.pos hb1 h0 h
  obtain ⟨hp, hd⟩ := readPacket_record env s.dump index s.pos pk hr
  unfold filterStep
  simp only [herr, ho, hk, hp, Bool.false_eq_true, if_false]
  refine ⟨_, rfl, rfl, hl, ?_, rfl, rfl, rfl⟩
  simp only [ho, hk] at hd ⊢
  exact hd

/-- The loop on an index whose entry at `pos` is whole and decodes: after any number of
passes it is still running at the same position, having read and decoded that entry once
per pass. -/
theorem filterRun_stuck (env : Env) (index : Bytes) (matchFn : Packet → Bool) (pk : Packet) :
    ∀ (passes : Nat) (s : Scan), s.blob.length = 8 → 0 ≤ s.pos →
      (s.pos * 17 + 17).toNat ≤ index.length → RecordAt env s.dump.data index s.pos pk →
      ∃ r : Scan, filterRun env index matchFn passes s = (Status.running, r) ∧
        r.pos = s.pos ∧ r.reads = s.reads ++ List.replicate passes s.pos ∧
        r.decoded = s.decoded ++ List.replicate passes pk ∧
        r.sent = s.sent ++ (if matchFn pk then List.replicate passes pk else []) := by
  intro passes
  induction passes with
  | zero =>
    intro s _ _ _ _
    refine ⟨s, rfl, rfl, by simp, by simp, by simp⟩
  | succ k ih =>
    intro s hb h0 h hr
    obtain ⟨r, hstep, hpos, hbl, hdump, hreads, hdec, hsent⟩ :=
      filterStep_record env index matchFn s pk hb h0 h hr
    obtain ⟨r2, hrun, hpos2, hreads2, hdec2, hsent2⟩ :=
      ih r hbl (by rw [hpos]; exact h0) (by rw [hpos]; exact h)
        (by rw [hpos, hdump]; exact hr)
    refine ⟨r2, ?_, by rw [hpos2, hpos], ?_, ?_, ?_⟩
    · simp only [filterRun, hstep, hrun]
    · rw [hreads2, hreads, hpos, List.append_assoc, List.replicate_succ, List.singleton_append]
    · rw [hdec2, hdec, List.append_assoc, List.replicate_succ, List.singleton_append]
    · rw [hsent2, hsent]
      by_cases hm : matchFn pk = true
      · simp only [hm, if_true, List.append_assoc, List.replicate_succ, List.singleton_append]
      · simp only [hm, Bool.false_eq_true, if_false, List.append_nil]

/-- C2 (the code departs from the claim): on an index of `n >= 1` whole entries whose
first payload decodes, the loop of `filter` never leaves position 0.  After any number of
passes it has not reached an end-of-log read; every read was at position 0 and every
packet decoded is the packet of entry 0. -/
theorem filter_never_advances (env : Env) (dump index : Bytes) (matchFn : Packet → Bool)
    (n : Nat) (pk : Packet) (hlen : index.length = 17 * n) (hn : 1 ≤ n)
    (hr : RecordAt env dump index 0 pk) (passes : Nat) :
    (filter env dump index matchFn passes).1 = Status.running ∧
      (filter env dump index matchFn passes).2.pos = 0 ∧
      (filter env dump index matchFn passes).2.reads = List.replicate passes 0 ∧
      (filter env dump index matchFn passes).2.decoded = List.replicate passes pk := by
  obtain ⟨r, hrun, hpos, hreads, hdec, _⟩ := filterRun_stuck env index matchFn pk passes
    { pos := 0, blob := List.replicate 8 0, dump := { data := dump, offset := 0 },
      reads := [], decoded := [], sent := [] }
    rfl (le_refl _) (by simp only; omega) hr
  unfold filter
  rw [hrun]
  exact ⟨rfl, hpos, by simpa using hreads, by simpa using hdec⟩

/-- The demonstration log of three entries: after five passes the loop has read position 0
five times and decoded the first packet five times. -/
theorem filter_never_advances_witness :
    (filter demoEnv demoDump demoIndex (fun _ => true) 5).1 = Status.running ∧
      (filter demoEnv demoDump demoIndex (fun _ => true) 5).2.pos = 0 ∧
      (filter demoEnv demoDump demoIndex (fun _ => true) 5).2.reads = [0, 0, 0, 0, 0] ∧
      (filter demoEnv demoDump demoIndex (fun _ => true) 5).2.decoded =
        [demoR1, demoR1, demoR1, demoR1, demoR1] :=
  filter_never_advances demoEnv demoDump demoIndex (fun _ => true) 3 demoR1 (by decide)
    (by decide) (by decide) 5

/-- C3 (the code departs from the claim): on a log of `n >= 1` whole entries whose first
payload decodes to `pk`, the packets `filter` has sent after any number of passes are
copies of `pk`, one per pass, when `pk` matches the target, and none when it does not;
the loop is still running.  No later packet is ever sent. -/
theorem filter_resends_first (env : Env) (dump index : Bytes) (target : Hash)
    (n : Nat) (pk : Packet) (_ht : target ≠ zeroHash) (hlen : index.length = 17 * n)
    (hn : 1 ≤ n) (hr : RecordAt env dump index 0 pk) (passes : Nat) :
    (filter env dump index (makeMatcher env target) passes).1 = Status.running ∧
      (filter env dump index (makeMatcher env target) passes).2.sent =
        (if makeMatcher env target pk then List.replicate passes pk else []) := by
  obtain ⟨r, hrun, _, _, _, hsent⟩ :=
    filterRun_stuck env index (makeMatcher env target) pk passes
    { pos := 0, blob := List.replicate 8 0, dump := { data := dump, offset := 0 },
      reads := [], decoded := [], sent := [] }
    rfl (le_refl _) (by simp only; omega) hr
  unfold filter
  rw [hrun]
  exact ⟨rfl, by simpa using hsent⟩

/-- The demonstration log `[r1 (match), r2 (no), r3 (match)]`: after three passes the
writer has been handed `r1` three times, not `[r1, r3]`. -/
theorem filter_resends_first_witness :
    (filter demoEnv demoDump demoIndex (makeMatcher demoEnv demoTarget) 3).1
        = Status.running ∧
      (filter demoEnv demoDump demoIndex (makeMatcher demoEnv demoTarget) 3).2.sent =
        (if makeMatcher demoEnv demoTarget demoR1 then List.replicate 3 demoR1 else []) ∧
      makeMatcher demoEnv demoTarget demoR1 = true ∧
      makeMatcher demoEnv demoTarget demoR2 = false ∧
      makeMatcher demoEnv demoTarget demoR3 = true ∧
      RecordAt demoEnv demoDump demoIndex 1 demoR2 ∧
      RecordAt demoEnv demoDump demoIndex 2 demoR3 :=
  ⟨(filter_resends_first demoEnv demoDump demoIndex demoTarget 3 demoR1 (by decide)
      (by decide) (by decide) (by decide) 3).1,
   (filter_resends_first demoEnv demoDump demoIndex demoTarget 3 demoR1 (by decide)
      (by decide) (by decide) (by decide) 3).2,
   by decide, by decide, by decide, by decide, by decide⟩

/-- C6 (the code departs from the claim): a pass of the loop at position `pos` ends the
scan exactly when fewer than 8 bytes are left at offset `17 * pos`.  With 8 to 16 bytes
left it does not stop: it goes on to seek and decode with what the buffer holds. -/
theorem filterStep_endOfLog_iff (env : Env) (index : Bytes) (matchFn : Packet → Bool)
    (s : Scan) (hb : s.blob.length = 8) (h0 : 0 ≤ s.pos) :
    (filterStep env index matchFn s).1 = Status.endOfLog ↔
      index.length < (s.pos * 17).toNat + 8 := by
  rw [← ReadAt_err_iff index s.blob s.pos hb h0]
  unfold filterStep
  by_cases herr : (ReadAt index s.blob (s.pos * 17)).2.2 = true
  · simp only [herr, if_true]
  · simp only [herr, if_false, iff_false]
    generalize readPacket env s.dump _ _ = d
    rcases d with ⟨_ | packet, d2⟩ <;> simp

/-- An index of eight bytes, fewer than the 17 of an entry: the first pass takes the
timestamp bytes left in the buffer for the offset and the kind, decodes an account-range
packet at offset 0 of the dump and sends it. -/
theorem filterStep_endOfLog_iff_witness :
    ((filter demoEnv demoDump (putUint64 0) (fun _ => true) 1).1 = Status.endOfLog ↔
        (putUint64 0).length < ((0 : Int) * 17).toNat + 8) ∧
      (filter demoEnv demoDump (putUint64 0) (fun _ => true) 1).1 = Status.running ∧
      (filter demoEnv demoDump (putUint64 0) (fun _ => true) 1).2.sent =
        [.accountRange { ID := 1, Accounts := [], Proof := [demoTarget.val] }] :=
  ⟨filterStep_endOfLog_iff demoEnv (putUint64 0) (fun _ => true)
      { pos := 0, blob := List.replicate 8 0, dump := { data := demoDump, offset := 0 },
        reads := [], decoded := [], sent := [] } (by decide) (by decide),
   by decide, by decide⟩

/-! ## Write errors in `writePacket` -/

/-- A write to a file that takes the bytes succeeds and appends them; the file then takes
what room was left over. -/
theorem Write_accepts (f : OutFile) (b : Bytes) (m : Nat) (h : Accepts f (b.length + m)) :
    (Write f b).2 = false ∧ (Write f b).1.data = f.data ++ b ∧ Accepts (Write f b).1 m := by
  obtain ⟨hw, ho, hr⟩ := h
  obtain ⟨d, o, wr, room⟩ := f
  simp only at hw ho hr
  subst hw ho
  cases room with
  | none => simp [Write, taken, Accepts]
  | some r =>
    simp only [taken] at hr
    have hk : min r b.length = b.length := by omega
    simp only [Write, taken, hk, Accepts, if_true, Option.map_some', lt_self_iff_false,
      decide_False, List.take_length, List.length, Nat.sub_self, List.replicate_zero,
      List.append_nil, List.drop_length, List.length_append, true_and]
    refine ⟨?_, ?_⟩
    · rw [List.drop_of_length_le (by omega), List.append_nil]
    · rw [List.drop_of_length_le (by omega)]
      simp only [List.length_nil, Nat.add_zero, true_and]
      omega

/-- The three index writes of `writePacket` on an index that takes 17 bytes. -/
theorem index_writes (f : OutFile) (t off : Nat) (k : Byte) (h : Accepts f 17) :
    (Write (Write (Write f (putUint64 t)).1 (putUint64 off)).1 [k]).1.data
      = f.data ++ entry t off k := by
  obtain ⟨_, h1, ha1⟩ := Write_accepts f (putUint64 t) 9 h
  obtain ⟨_, h2, ha2⟩ := Write_accepts (Write f (putUint64 t)).1 (putUint64 off) 1 ha1
  obtain ⟨_, h3, _⟩ := Write_accepts (Write (Write f (putUint64 t)).1 (putUint64 off)).1 [k] 0
    ha2
  rw [h3, h2, h1, entry]
  simp only [List.append_assoc]

/-- C7, as stated, fails: with the dump opened the way `main` opens it (read-only), the
write of the encoded bytes fails and `writePacket` returns normally. -/
theorem writePacket_error_counterexample :
    ¬ ∀ (env : Env) (w : Writer) (now : Int) (p : Packet),
        (Write w.snapDump (encode env p)).2 = true →
        (writePacket env w now p).2 ≠ Outcome.returned := by
  intro h
  exact h demoEnv (newWriter (osOpen []) emptyFile) 10 demoR1 (by decide) rfl

/-- C7, amended: when the write of the encoded bytes to the dump fails, whether refused
outright or cut short, `writePacket` prints `Failed to write packet into dump` and
carries on.  It returns normally, so no error or panic reaches its caller; the counter
still advances by the length of the encoding; and the 17-byte index entry is still
appended when the index takes the writes. -/
theorem writePacket_dump_error (env : Env) (w : Writer) (now : Int) (p : Packet)
    (herr : (Write w.snapDump (encode env p)).2 = true) :
    (writePacket env w now p).2 = Outcome.returned ∧
      "Failed to write packet into dump" ∈ (writePacket env w now p).1.stdout ∧
      (writePacket env w now p).1.snapSize = (w.snapSize + (encode env p).length) % 2 ^ 64 ∧
      (Accepts w.snapIndex 17 → (writePacket env w now p).1.snapIndex.data
        = w.snapIndex.data ++ entry (toUint64 now) w.snapSize (kindOf p)) := by
  unfold encode at herr
  refine ⟨rfl, ?_, rfl, ?_⟩
  · simp only [writePacket, herr, logIf, if_true]
    split <;> split <;> split <;> simp
  · intro hi
    simp only [writePacket]
    exact index_writes w.snapIndex (toUint64 now) w.snapSize (kindOf p) hi

/-- The first packet of the demonstration log (34 bytes) written to a dump on a device
with room for 10 bytes, and to an empty index: the write is cut short after 10 bytes, the
call returns, the index entry is written and the counter is 34. -/
theorem writePacket_dump_error_witness :
    (Write (fileWithRoom 10) (encode demoEnv demoR1)).2 = true ∧
      (writePacket demoEnv (newWriter (fileWithRoom 10) emptyFile) 10 demoR1).1.snapDump.data
        = (encode demoEnv demoR1).take 10 ∧
      (writePacket demoEnv (newWriter (fileWithRoom 10) emptyFile) 10 demoR1).2
        = Outcome.returned ∧
      "Failed to write packet into dump" ∈
        (writePacket demoEnv (newWriter (fileWithRoom 10) emptyFile) 10 demoR1).1.stdout ∧
      (writePacket demoEnv (newWriter (fileWithRoom 10) emptyFile) 10 demoR1).1.snapSize
        = 34 ∧
      (writePacket demoEnv (newWriter (fileWithRoom 10) emptyFile) 10 demoR1).1.snapIndex.data
        = entry 10 0 3 :=
  have h := writePacket_dump_error demoEnv (newWriter (fileWithRoom 10) emptyFile) 10 demoR1
    (by decide)
  ⟨by decide, by decide, h.1, h.2.1, h.2.2.1.trans (by decide),
    (h.2.2.2 (by decide)).trans (by decide)⟩

end Snapshark
